import Mathlib

/-!
Shallow embedding of the AURN metadata module (src/aurn/mod.rs) of the
AURN-InfluxDB-Export repository.

The two operations the claims concern are `AURNMetadata::new` (bulk CSV
acquisition plus per-station site-code enrichment) and
`AURNMetadata::select_between_dates` (date-window filtering).  Network
transport, HTML parsing and CSV deserialisation are commodity collaborators
in the source; they enter the embedding as explicit inputs:

* the deserialised CSV rows arrive as a list of `Except` values, mirroring
  the per-row `Result` values produced by `csv::Reader::deserialize`;
* the per-station pages arrive as a function from station id to the list of
  `href` attribute values (one `Option String` per anchor, `none` when the
  anchor has no `href` attribute) of the elements matching the
  `a[class="bData"]` selector, in document order;
* the two caller-supplied regexes of the configuration ("Regex Site ID
  Link" and "Regex Site ID Code") are abstracted as a match predicate and a
  token extractor, exactly as the code treats them (Regex::is_match and
  Regex::captures followed by unwrap).

A result of `none` for an embedded operation models an abort of the whole
run: in the source every such path is an `unwrap()` or an explicit abort
macro call.  Datetimes are modelled as calendar tuples ordered
chronologically; no machine-integer overflow occurs on the modelled paths.
-/

/-- Calendar datetime at second precision, modelling `chrono::DateTime<Utc>`
values as they occur in this program (always normalised: month in 1..12,
day within the month, hour below 24, minute and second below 60). -/
structure DT where
  year : Int
  month : Nat
  day : Nat
  hour : Nat
  minute : Nat
  second : Nat
deriving DecidableEq

/-- Strictly monotone encoding of the chronological order for normalised
datetimes: the multipliers 13, 32, 24, 60, 60 strictly bound the ranges of
month, day, hour, minute and second, so comparing keys is comparing
instants. -/
def DT.key (t : DT) : Int :=
  ((((t.year * 13 + t.month) * 32 + t.day) * 24 + t.hour) * 60 + t.minute) * 60 + t.second

/-- Strict chronological comparison of datetimes, modelling the `<` and `>`
comparisons on `chrono::DateTime<Utc>`. -/
def DT.lt (a b : DT) : Bool :=
  decide (a.key < b.key)

/-- Model of `chrono::MIN_DATETIME`: the minimum representable instant.  It
lies strictly below every instant with a four-digit year; its exact
magnitude is irrelevant to the program. -/
def minDateTime : DT :=
  ⟨-262144, 1, 1, 0, 0, 0⟩

/-- Tokens of the fixed-shape regular expression patterns used by the
program: a decimal-digit class, the dot (any character other than a line
break), and a literal character. -/
inductive PatTok where
  | digit : PatTok
  | anyc : PatTok
  | lit : Char → PatTok

/-- Whether one pattern token accepts a character.  The digit class is the
ASCII reading of the `\d` class (the inputs relevant to the program are
ASCII), the dot excludes the line break as in the Rust regex crate. -/
def tokMatch : PatTok → Char → Bool
  | PatTok.digit, c => c.isDigit
  | PatTok.anyc, c => c != '\n'
  | PatTok.lit a, c => a == c

/-- Whether the token list matches a prefix of the character list. -/
def matchHere : List PatTok → List Char → Bool
  | [], _ => true
  | _ :: _, [] => false
  | t :: ts, c :: cs => tokMatch t c && matchHere ts cs

/-- Whether the token list matches the whole character list exactly. -/
def matchExact : List PatTok → List Char → Bool
  | [], [] => true
  | [], _ :: _ => false
  | _ :: _, [] => false
  | t :: ts, c :: cs => tokMatch t c && matchExact ts cs

/-- Whether the token list matches at some position of the character list
(unanchored search, as performed by `Regex::is_match`). -/
def searchFrom (p : List PatTok) : List Char → Bool
  | [] => matchHere p []
  | c :: cs => matchHere p (c :: cs) || searchFrom p cs

/-- Token form of the pattern from the source line
`Regex::new(r"\d...-\d.-\d.T\d.:\d.:\d.Z")`: only the leading character of
every group is constrained to be a digit, the remaining positions accept
any non-line-break character. -/
def iso8601Toks : List PatTok :=
  [PatTok.digit, PatTok.anyc, PatTok.anyc, PatTok.anyc, PatTok.lit '-',
   PatTok.digit, PatTok.anyc, PatTok.lit '-',
   PatTok.digit, PatTok.anyc, PatTok.lit 'T',
   PatTok.digit, PatTok.anyc, PatTok.lit ':',
   PatTok.digit, PatTok.anyc, PatTok.lit ':',
   PatTok.digit, PatTok.anyc, PatTok.lit 'Z']

/-- The date classification used by `select_between_dates`:
`iso8601_regex.is_match(s)`, an unanchored search for `iso8601Toks`. -/
def iso8601_is_match (s : String) : Bool :=
  searchFrom iso8601Toks s.data

/-- Modelled from the spec (section 4.2 step 2), for comparison with the
classification the code performs: the strict structural check, four decimal
digits, dash, two digits, dash, two digits, literal T, two digits, colon,
two digits, colon, two digits, literal Z, covering the whole string with no
surrounding text. -/
def strictToks : List PatTok :=
  [PatTok.digit, PatTok.digit, PatTok.digit, PatTok.digit, PatTok.lit '-',
   PatTok.digit, PatTok.digit, PatTok.lit '-',
   PatTok.digit, PatTok.digit, PatTok.lit 'T',
   PatTok.digit, PatTok.digit, PatTok.lit ':',
   PatTok.digit, PatTok.digit, PatTok.lit ':',
   PatTok.digit, PatTok.digit, PatTok.lit 'Z']

/-- Modelled from the spec: the strict well-formedness classification the
spec describes (and claim C2 attributes to the code). -/
def specWellFormed (s : String) : Bool :=
  matchExact strictToks s.data

/-- Numeric value of an ASCII digit character. -/
def toDigit (c : Char) : Nat :=
  c.toNat - 48

/-- Whether the year is a leap year (proleptic Gregorian rule, as used by
chrono). -/
def isLeapYear (y : Int) : Bool :=
  y % 4 == 0 && (y % 100 != 0 || y % 400 == 0)

/-- Number of days of the given month in the given year. -/
def monthLength (y : Int) (m : Nat) : Nat :=
  if m = 2 then (if isLeapYear y then 29 else 28)
  else if m = 4 ∨ m = 6 ∨ m = 9 ∨ m = 11 then 30
  else 31

/-- Model of `str::parse::<DateTime<Utc>>()` (RFC 3339 parsing via chrono)
on the strings this program builds, which always carry the appended
`T00:00:00Z` suffix: the parse succeeds exactly on a full-string canonical
`YYYY-MM-DDTHH:MM:SSZ` shape whose components form a real calendar date and
time of day; any surrounding or stray character makes it fail. -/
def parseDT (s : String) : Option DT :=
  match s.data with
  | [y1, y2, y3, y4, '-', m1, m2, '-', d1, d2, 'T',
     h1, h2, ':', n1, n2, ':', p1, p2, 'Z'] =>
    if y1.isDigit ∧ y2.isDigit ∧ y3.isDigit ∧ y4.isDigit ∧
       m1.isDigit ∧ m2.isDigit ∧ d1.isDigit ∧ d2.isDigit ∧
       h1.isDigit ∧ h2.isDigit ∧ n1.isDigit ∧ n2.isDigit ∧
       p1.isDigit ∧ p2.isDigit then
      let y : Int := Int.ofNat (toDigit y1 * 1000 + toDigit y2 * 100 + toDigit y3 * 10 + toDigit y4)
      let mo : Nat := toDigit m1 * 10 + toDigit m2
      let d : Nat := toDigit d1 * 10 + toDigit d2
      let h : Nat := toDigit h1 * 10 + toDigit h2
      let mi : Nat := toDigit n1 * 10 + toDigit n2
      let sec : Nat := toDigit p1 * 10 + toDigit p2
      if 1 ≤ mo ∧ mo ≤ 12 ∧ 1 ≤ d ∧ d ≤ monthLength y mo ∧ h ≤ 23 ∧ mi ≤ 59 ∧ sec ≤ 59 then
        some ⟨y, mo, d, h, mi, sec⟩
      else none
    else none
  | _ => none

/-- A CSV row as the source stores it: `type CSVRow = HashMap<String, String>`,
modelled as an association list from field name to field value. -/
abbrev CSVRow : Type := List (String × String)

/-- Field lookup, modelling `HashMap::get`. -/
def getField : CSVRow → String → Option String
  | [], _ => none
  | (k0, v0) :: rest, k => if k0 = k then some v0 else getField rest k

/-- Field insertion, modelling `HashMap::insert`: replaces the value of an
existing key, otherwise adds the binding. -/
def insertField : CSVRow → String → String → CSVRow
  | [], k, v => [(k, v)]
  | (k0, v0) :: rest, k, v =>
    if k0 = k then (k, v) :: rest else (k0, v0) :: insertField rest k v

/-- The field-name literals the source uses. -/
def startDateKey : String := "Start Date"

/-- The end-of-operation field name used by the source. -/
def endDateKey : String := "End Date"

/-- The station identifier field name used by the source. -/
def ukAirIdKey : String := "UK-AIR ID"

/-- The field name the enrichment loop writes the site code into. -/
def siteCodeKey : String := "Site Code"

/-- The fixed time-of-day suffix the source appends before parsing. -/
def midnightSuffix : String := "T00:00:00Z"

/-- Effective start datetime of a record as `select_between_dates` computes
it: read the Start Date field (its absence aborts, modelling `unwrap` on
`get`), append `T00:00:00Z`, and if the pattern search matches, parse
(failure aborts, modelling `unwrap` on `parse`); otherwise fall back to the
minimum representable instant. -/
def effStartDate (site : CSVRow) : Option DT :=
  match getField site startDateKey with
  | none => none
  | some f =>
    if iso8601_is_match (f ++ midnightSuffix) then parseDT (f ++ midnightSuffix)
    else some minDateTime

/-- Effective end datetime of a record as `select_between_dates` computes
it, with `Utc::now()` passed in as the explicit evaluation instant `now`:
as for the start, but the fallback for a non-matching field is `now`. -/
def effEndDate (now : DT) (site : CSVRow) : Option DT :=
  match getField site endDateKey with
  | none => none
  | some f =>
    if iso8601_is_match (f ++ midnightSuffix) then parseDT (f ++ midnightSuffix)
    else some now

/-- The per-record decision of `select_between_dates`: the record is kept
exactly when `start_date < site_end_date && end_date > site_start_date`.
`none` models an abort while computing either effective datetime. -/
def keepSite (now startDate endDate : DT) (site : CSVRow) : Option Bool :=
  match effStartDate site, effEndDate now site with
  | some ss, some se => some (DT.lt startDate se && DT.lt ss endDate)
  | _, _ => none

/-- The index loop of `select_between_dates`: `for site_index in
(0..len).rev()` inspects the record at each index, descending, and removes
it in place when the keep decision is negative.  The counter argument is
the index about to be inspected plus one. -/
def selectGo (now startDate endDate : DT) : Nat → List CSVRow → Option (List CSVRow)
  | 0, md => some md
  | i + 1, md =>
    match md.get? i with
    | none => some md
    | some site =>
      match keepSite now startDate endDate site with
      | none => none
      | some true => selectGo now startDate endDate i md
      | some false => selectGo now startDate endDate i (md.eraseIdx i)

/-- Model of `AURNMetadata::select_between_dates`, with the evaluation
instant `now` explicit and the metadata vector passed and returned
explicitly; `none` models an abort of the run. -/
def select_between_dates (now startDate endDate : DT) (md : List CSVRow) : Option (List CSVRow) :=
  selectGo now startDate endDate md.length md

/-- Modelled from the spec (section 4.2 step 5): filtering as building a
fresh retained sequence, keeping exactly the records whose per-record
decision is positive, in their original order. -/
def select_between_dates_spec (now startDate endDate : DT) (md : List CSVRow) : List CSVRow :=
  md.filter (fun r => decide (keepSite now startDate endDate r = some true))

/-- The enrichment loop body of `AURNMetadata::new` for one record: walk
the `href` attribute values of the `a[class="bData"]` anchors in document
order; an anchor without an `href` attribute aborts (modelling the `unwrap`
inside the iterator map); for every anchor matching the site-id marker
pattern, extract the token (extraction failure aborts, modelling the
`unwrap` on `captures`) and insert it as the Site Code field, overwriting
any previous value. -/
def enrichRecord (siteMatch : String → Bool) (extractTok : String → Option String) :
    CSVRow → List (Option String) → Option CSVRow
  | rec, [] => some rec
  | _, none :: _ => none
  | rec, some tag :: rest =>
    if siteMatch tag then
      match extractTok tag with
      | none => none
      | some tok => enrichRecord siteMatch extractTok (insertField rec siteCodeKey tok) rest
    else enrichRecord siteMatch extractTok rec rest

/-- Model of the row loop of `AURNMetadata::new` from the point where the
bulk CSV has been fetched: each deserialisation result is unwrapped (an
error aborts the whole acquisition), the UK-AIR ID field is read (absence
aborts), the per-station page for that id is scanned by `enrichRecord`, and
the enriched record is appended to the metadata vector. -/
def AURNMetadata.new (siteMatch : String → Bool) (extractTok : String → Option String)
    (pages : String → List (Option String)) : List (Except String CSVRow) → Option (List CSVRow)
  | [] => some []
  | Except.error _ :: _ => none
  | Except.ok rec :: rest =>
    match getField rec ukAirIdKey with
    | none => none
    | some id =>
      match enrichRecord siteMatch extractTok rec (pages id) with
      | none => none
      | some rec2 =>
        match AURNMetadata.new siteMatch extractTok pages rest with
        | none => none
        | some out => some (rec2 :: out)

/-- A start-date field value with a non-digit where the claims demand a
digit: the lax source pattern accepts it, the strict parse rejects it. -/
def malformedDateField : String := "202A-01-01"

/-- The empty field value, as an empty CSV cell deserialises to. -/
def emptyValue : String := ""

/-- A canonical strict calendar-date-at-midnight string. -/
def strictSample : String := "2020-01-01T00:00:00Z"

/-- Start date of the long-closed sample station. -/
def closedStart : String := "2000-01-01"

/-- End date of the long-closed sample station. -/
def closedEnd : String := "2010-01-01"

/-- Start date of the open-ended sample station. -/
def openStart : String := "2015-06-01"

/-- An end date that coincides exactly with the sample window start. -/
def boundaryEnd : String := "2017-01-01"

/-- Start date of the sample station opened during the window. -/
def newStart : String := "2018-01-01"

/-- A deserialisation error message for the malformed-row scenarios. -/
def badRowMsg : String := "bad row"

/-- A station identifier value for the acquisition scenarios. -/
def stationId : String := "X"

/-- Two anchor link-target values for the enrichment scenarios. -/
def tagA : String := "A"

/-- Second anchor link-target value, later in document order. -/
def tagB : String := "B"

/-- Record whose start date the lax pattern accepts but the parse rejects. -/
def cexRecord : CSVRow := [(startDateKey, malformedDateField), (endDateKey, emptyValue)]

/-- Station closed in 2010: well-formed start and end dates. -/
def closedRecord : CSVRow := [(startDateKey, closedStart), (endDateKey, closedEnd)]

/-- Station still operating: well-formed start date, empty end date. -/
def openEndedRecord : CSVRow := [(startDateKey, openStart), (endDateKey, emptyValue)]

/-- Station whose operation ends exactly at the sample window start. -/
def boundaryRecord : CSVRow := [(startDateKey, closedStart), (endDateKey, boundaryEnd)]

/-- Station opened in 2018 and still operating. -/
def newerRecord : CSVRow := [(startDateKey, newStart), (endDateKey, emptyValue)]

/-- A CSV row whose identifier field is present but empty. -/
def emptyIdRecord : CSVRow := [(ukAirIdKey, emptyValue)]

/-- A CSV row with an ordinary identifier field. -/
def idRecord : CSVRow := [(ukAirIdKey, stationId)]

/-- The evaluation instant used by the concrete scenarios. -/
def dtNow : DT := ⟨2026, 1, 1, 0, 0, 0⟩

/-- Midnight on the first day of 2017. -/
def dt2017 : DT := ⟨2017, 1, 1, 0, 0, 0⟩

/-- Midnight on the first day of 2020. -/
def dt2020 : DT := ⟨2020, 1, 1, 0, 0, 0⟩

/-- Midnight on the first day of 2000. -/
def dt2000 : DT := ⟨2000, 1, 1, 0, 0, 0⟩

/-- Midnight on the first day of June 2015. -/
def dt2015 : DT := ⟨2015, 6, 1, 0, 0, 0⟩

/-- Looking up the key just inserted yields the inserted value. -/
lemma getField_insertField_self (rec : CSVRow) (k v : String) :
    getField (insertField rec k v) k = some v := by
  induction rec with
  | nil => simp [insertField, getField]
  | cons p rest ih =>
    obtain ⟨k0, v0⟩ := p
    by_cases h : k0 = k
    · simp [insertField, h, getField]
    · simp [insertField, h, getField, ih]

/-- Insertion does not disturb the lookup of a different key. -/
lemma getField_insertField_ne (rec : CSVRow) (k v k2 : String) (h : k2 ≠ k) :
    getField (insertField rec k v) k2 = getField rec k2 := by
  have hne : k ≠ k2 := Ne.symm h
  induction rec with
  | nil => simp [insertField, getField, hne]
  | cons p rest ih =>
    obtain ⟨k0, v0⟩ := p
    by_cases hk : k0 = k
    · subst hk
      simp [insertField, getField, hne]
    · by_cases hk2 : k0 = k2
      · simp [insertField, hk, getField, hk2, h]
      · simp [insertField, hk, getField, hk2, ih]

/-- An anchor without an href attribute aborts the enrichment of the
record, wherever it occurs in the page. -/
lemma enrichRecord_none_of_mem (sm : String → Bool) (et : String → Option String)
    (rec : CSVRow) (hrefs : List (Option String)) (h : none ∈ hrefs) :
    enrichRecord sm et rec hrefs = none := by
  induction hrefs generalizing rec with
  | nil => cases h
  | cons o os ih =>
    cases o with
    | none => rfl
    | some tag =>
      have hmem : none ∈ os := by
        rcases List.mem_cons.mp h with h1 | h1
        · cases h1
        · exact h1
      by_cases hm : sm tag = true
      · cases het : et tag with
        | none => simp [enrichRecord, hm, het]
        | some tok => simp [enrichRecord, hm, het, ih _ hmem]
      · simp [enrichRecord, hm, ih _ hmem]

/-- A page on which no anchor matches the marker pattern leaves the record
unchanged. -/
lemma enrichRecord_no_match (sm : String → Bool) (et : String → Option String)
    (rec : CSVRow) (tags : List String) (h : ∀ t ∈ tags, sm t = false) :
    enrichRecord sm et rec (tags.map some) = some rec := by
  induction tags generalizing rec with
  | nil => rfl
  | cons t ts ih =>
    have ht : sm t = false := h t (List.mem_cons_self t ts)
    simp only [List.map_cons, enrichRecord, ht]
    simp only [Bool.false_eq_true, if_false]
    exact ih rec (fun x hx => h x (List.mem_cons_of_mem t hx))

/-- Enrichment only ever writes the Site Code field: every other field of
the record is preserved. -/
lemma enrichRecord_getField_ne (sm : String → Bool) (et : String → Option String)
    (rec rec2 : CSVRow) (hrefs : List (Option String)) (k : String)
    (hk : k ≠ siteCodeKey) (h : enrichRecord sm et rec hrefs = some rec2) :
    getField rec2 k = getField rec k := by
  induction hrefs generalizing rec with
  | nil =>
    simp only [enrichRecord] at h
    cases h
    rfl
  | cons o os ih =>
    cases o with
    | none => cases h
    | some tag =>
      by_cases hm : sm tag = true
      · cases het : et tag with
        | none => simp [enrichRecord, hm, het] at h
        | some tok =>
          simp only [enrichRecord, hm, het, if_true] at h
          rw [ih _ h]
          exact getField_insertField_ne rec siteCodeKey tok k hk
      · simp only [enrichRecord, hm] at h
        simp only [Bool.false_eq_true, if_false] at h
        exact ih _ h

/-- Element at the junction index of an appended list. -/
lemma get_append_length {α : Type} (pre post : List α) (x : α) :
    (pre ++ x :: post).get? pre.length = some x := by
  induction pre with
  | nil => rfl
  | cons a l ih => simpa using ih

/-- Erasing at the junction index removes exactly the junction element. -/
lemma eraseIdx_append_length {α : Type} (pre post : List α) (x : α) :
    (pre ++ x :: post).eraseIdx pre.length = pre ++ post := by
  induction pre with
  | nil => rfl
  | cons a l ih => simpa [List.eraseIdx] using ih

/-- The descending index loop, run over the first `pre.length` positions of
`pre ++ post`, aborts when some record of `pre` aborts and otherwise
replaces `pre` by its retained subsequence, leaving `post` untouched. -/
lemma selectGo_append (now startDate endDate : DT) (pre post : List CSVRow) :
    selectGo now startDate endDate pre.length (pre ++ post) =
      if pre.all (fun r => (keepSite now startDate endDate r).isSome)
      then some (pre.filter (fun r => decide (keepSite now startDate endDate r = some true)) ++ post)
      else none := by
  induction pre using List.reverseRecOn generalizing post with
  | nil => simp [selectGo]
  | append_singleton l x ih =>
    have hlen : (l ++ [x]).length = l.length + 1 := by simp
    have hget : ((l ++ [x]) ++ post).get? l.length = some x := by
      rw [List.append_assoc]
      exact get_append_length l post x
    rw [hlen]
    simp only [selectGo, hget]
    cases hk : keepSite now startDate endDate x with
    | none =>
      simp [List.all_append, hk]
    | some b =>
      cases b with
      | true =>
        have hrw : (l ++ [x]) ++ post = l ++ (x :: post) := by
          rw [List.append_assoc]
          rfl
        rw [hrw, ih (x :: post)]
        by_cases hall : l.all (fun r => (keepSite now startDate endDate r).isSome) = true
        · simp [List.all_append, List.filter_append, hall, hk]
        · simp [List.all_append, hall, hk]
      | false =>
        have hrw : ((l ++ [x]) ++ post).eraseIdx l.length = l ++ post := by
          rw [List.append_assoc]
          exact eraseIdx_append_length l post x
        rw [hrw, ih post]
        by_cases hall : l.all (fun r => (keepSite now startDate endDate r).isSome) = true
        · simp [List.all_append, List.filter_append, hall, hk]
        · simp [List.all_append, hall, hk]

/-- Master characterisation of the filter: the in-place reverse scan of
`select_between_dates` aborts exactly when the per-record decision of some
record aborts, and otherwise returns the retained records of the original
sequence in their original order. -/
lemma select_between_dates_eq (now startDate endDate : DT) (md : List CSVRow) :
    select_between_dates now startDate endDate md =
      if md.all (fun r => (keepSite now startDate endDate r).isSome)
      then some (md.filter (fun r => decide (keepSite now startDate endDate r = some true)))
      else none := by
  have h := selectGo_append now startDate endDate md []
  simpa [select_between_dates] using h

/-- One pattern token is weaker than another when it accepts every
character the other accepts. -/
def tokWeaker (a b : PatTok) : Prop :=
  ∀ c, tokMatch a c = true → tokMatch b c = true

/-- The digit class is weaker than itself. -/
lemma tokWeaker_digit_digit : tokWeaker PatTok.digit PatTok.digit :=
  fun _ h => h

/-- The digit class is weaker than the dot: a decimal digit is not a line
break. -/
lemma tokWeaker_digit_any : tokWeaker PatTok.digit PatTok.anyc := by
  intro c h
  simp only [tokMatch] at h ⊢
  rw [bne_iff_ne]
  intro hc
  rw [hc] at h
  exact absurd h (by decide)

/-- A literal is weaker than the same literal. -/
lemma tokWeaker_lit (a : Char) : tokWeaker (PatTok.lit a) (PatTok.lit a) :=
  fun _ h => h

/-- An exact match against pointwise-stronger tokens yields a prefix match
against the weaker tokens. -/
lemma matchHere_of_matchExact (ts us : List PatTok) (h : List.Forall₂ tokWeaker ts us) :
    ∀ l, matchExact ts l = true → matchHere us l = true := by
  induction h with
  | nil =>
    intro l _
    rfl
  | cons hw hrest ih =>
    intro l hl
    cases l with
    | nil => simp [matchExact] at hl
    | cons c cs =>
      simp only [matchExact, Bool.and_eq_true] at hl
      simp only [matchHere, Bool.and_eq_true]
      exact ⟨hw c hl.1, ih cs hl.2⟩

/-- A prefix match is in particular an unanchored match. -/
lemma searchFrom_of_matchHere (p : List PatTok) (l : List Char) (h : matchHere p l = true) :
    searchFrom p l = true := by
  cases l with
  | nil => simpa [searchFrom] using h
  | cons c cs => simp [searchFrom, h]

/-- Every token of the strict spec pattern is weaker than the matching
token of the lax pattern of the source. -/
lemma strict_weaker_lax : List.Forall₂ tokWeaker strictToks iso8601Toks := by
  refine List.Forall₂.cons tokWeaker_digit_digit ?_
  refine List.Forall₂.cons tokWeaker_digit_any ?_
  refine List.Forall₂.cons tokWeaker_digit_any ?_
  refine List.Forall₂.cons tokWeaker_digit_any ?_
  refine List.Forall₂.cons (tokWeaker_lit '-') ?_
  refine List.Forall₂.cons tokWeaker_digit_digit ?_
  refine List.Forall₂.cons tokWeaker_digit_any ?_
  refine List.Forall₂.cons (tokWeaker_lit '-') ?_
  refine List.Forall₂.cons tokWeaker_digit_digit ?_
  refine List.Forall₂.cons tokWeaker_digit_any ?_
  refine List.Forall₂.cons (tokWeaker_lit 'T') ?_
  refine List.Forall₂.cons tokWeaker_digit_digit ?_
  refine List.Forall₂.cons tokWeaker_digit_any ?_
  refine List.Forall₂.cons (tokWeaker_lit ':') ?_
  refine List.Forall₂.cons tokWeaker_digit_digit ?_
  refine List.Forall₂.cons tokWeaker_digit_any ?_
  refine List.Forall₂.cons (tokWeaker_lit ':') ?_
  refine List.Forall₂.cons tokWeaker_digit_digit ?_
  refine List.Forall₂.cons tokWeaker_digit_any ?_
  refine List.Forall₂.cons (tokWeaker_lit 'Z') ?_
  exact List.Forall₂.nil

/-- Claim C1: for every record whose start-date and end-date fields are
classified as well-formed (the pattern matches and the parse yields the
effective dates), a completed run of select_between_dates keeps the record
exactly when window.start is strictly before the effective end date and
window.end is strictly after the effective start date; in particular a
station ending exactly at window.start, or beginning exactly at
window.end, is removed. -/
theorem select_between_dates_keeps_iff_overlap
    (now startDate endDate : DT) (md md2 : List CSVRow) (site : CSVRow)
    (fs fe : String) (ps pe : DT)
    (hmem : site ∈ md)
    (hfs : getField site startDateKey = some fs)
    (hfe : getField site endDateKey = some fe)
    (hms : iso8601_is_match (fs ++ midnightSuffix) = true)
    (hps : parseDT (fs ++ midnightSuffix) = some ps)
    (hme : iso8601_is_match (fe ++ midnightSuffix) = true)
    (hpe : parseDT (fe ++ midnightSuffix) = some pe)
    (hrun : select_between_dates now startDate endDate md = some md2) :
    site ∈ md2 ↔ (DT.lt startDate pe = true ∧ DT.lt ps endDate = true) := by
  have hss : effStartDate site = some ps := by
    unfold effStartDate
    rw [hfs]
    simp [hms, hps]
  have hse : effEndDate now site = some pe := by
    unfold effEndDate
    rw [hfe]
    simp [hme, hpe]
  have hkeep : keepSite now startDate endDate site =
      some (DT.lt startDate pe && DT.lt ps endDate) := by
    unfold keepSite
    rw [hss, hse]
  rw [select_between_dates_eq] at hrun
  by_cases hall : md.all (fun r => (keepSite now startDate endDate r).isSome) = true
  · rw [if_pos hall] at hrun
    injection hrun with hrun
    subst hrun
    rw [List.mem_filter]
    simp [hmem, hkeep]
  · rw [if_neg hall] at hrun
    cases hrun

/-- Claim C1 witness: the boundary scenario, a station whose operation ends
exactly at window.start is removed from the result. -/
theorem select_between_dates_keeps_iff_overlap_witness :
    (boundaryRecord ∈ ([] : List CSVRow) ↔
      (DT.lt dt2017 dt2017 = true ∧ DT.lt dt2000 dt2020 = true)) :=
  select_between_dates_keeps_iff_overlap dtNow dt2017 dt2020 [boundaryRecord] []
    boundaryRecord closedStart boundaryEnd dt2000 dt2017 (List.Mem.head _)
    (by decide) (by decide) (by decide) (by decide) (by decide) (by decide) (by decide)

/-- Claim C2 counterexample: the code classification is not the claimed
strict structural check.  The field value 202A-01-01 has a non-digit in a
digit position, yet after appending the suffix the classification of the
source accepts it, while the strict structural check of the claim rejects
it. -/
theorem iso8601_classification_not_strict_cex :
    iso8601_is_match (malformedDateField ++ midnightSuffix) = true ∧
    specWellFormed (malformedDateField ++ midnightSuffix) = false := by
  constructor
  · decide
  · decide

/-- Claim C2 (amended): every string of the strict structure is accepted by
the classification of the source, but the converse fails: the source
pattern constrains only the leading character of every digit group to a
digit and searches unanchored, so strings with arbitrary non-line-break
characters in the trailing digit positions, or with surrounding text, are
accepted as well. -/
theorem strict_shape_implies_classified (s : String) (h : specWellFormed s = true) :
    iso8601_is_match s = true := by
  unfold specWellFormed at h
  unfold iso8601_is_match
  exact searchFrom_of_matchHere _ _ (matchHere_of_matchExact _ _ strict_weaker_lax _ h)

/-- Claim C2 witness: the canonical strict string is accepted. -/
theorem strict_shape_implies_classified_witness :
    specWellFormed strictSample = true ∧ iso8601_is_match strictSample = true :=
  ⟨by decide, strict_shape_implies_classified strictSample (by decide)⟩

/-- Claim C3: an end-date field the classification rejects (empty or
malformed without matching the pattern) is replaced by the evaluation
instant, so for any window whose start lies before the evaluation instant
the window-start side of the overlap test holds and the keep decision
reduces to the start-side test alone: such a record is never dropped for
ending before the window. -/
theorem malformed_end_date_defaults
    (now startDate endDate : DT) (site : CSVRow) (fe : String) (ss : DT)
    (hfe : getField site endDateKey = some fe)
    (hml : iso8601_is_match (fe ++ midnightSuffix) = false)
    (hss : effStartDate site = some ss)
    (hlt : DT.lt startDate now = true) :
    effEndDate now site = some now ∧
    keepSite now startDate endDate site = some (DT.lt ss endDate) := by
  have hse : effEndDate now site = some now := by
    unfold effEndDate
    rw [hfe]
    simp [hml]
  refine ⟨hse, ?_⟩
  unfold keepSite
  rw [hss, hse]
  simp [hlt]

/-- Claim C3 witness: the open-ended spec example, a station with start
date 2015-06-01 and an empty end-date field, inside the window from 2017
to 2020, evaluated in 2026. -/
theorem malformed_end_date_defaults_witness :
    effEndDate dtNow openEndedRecord = some dtNow ∧
    keepSite dtNow dt2017 dt2020 openEndedRecord = some (DT.lt dt2015 dt2020) :=
  malformed_end_date_defaults dtNow dt2017 dt2020 openEndedRecord emptyValue dt2015
    (by decide) (by decide) (by decide) (by decide)

/-- Claim C5 counterexample: select_between_dates can fail.  A record whose
start-date field is 202A-01-01 matches the lax pattern of the source after
the suffix is appended, the subsequent parse fails, and the unwrap aborts
the whole call instead of degrading to a default. -/
theorem select_between_dates_can_fail_cex :
    select_between_dates dtNow dt2017 dt2020 [cexRecord] = none := by
  decide

/-- Claim C5 (amended): select_between_dates rejects no window ordering and
completes for every pair of bounds, provided every record's per-record
decision evaluates (both date fields present, and every suffixed field
that matches the pattern also parses); a field matching the pattern but
failing the parse aborts the call. -/
theorem select_between_dates_total_on_parseable
    (now startDate endDate : DT) (md : List CSVRow)
    (h : ∀ r ∈ md, (keepSite now startDate endDate r).isSome = true) :
    (select_between_dates now startDate endDate md).isSome = true := by
  rw [select_between_dates_eq, if_pos]
  · rfl
  · exact List.all_eq_true.mpr h

/-- Claim C5 witness: a window whose end bound lies before its start bound
is still processed to completion. -/
theorem select_between_dates_total_on_parseable_witness :
    (select_between_dates dtNow dt2020 dt2017 [closedRecord]).isSome = true :=
  select_between_dates_total_on_parseable dtNow dt2020 dt2017 [closedRecord] (by decide)

/-- Claim C7: a second application of select_between_dates with the same
window bounds (and evaluation instant) returns the result of the first
application unchanged. -/
theorem select_between_dates_idempotent
    (now startDate endDate : DT) (md md2 : List CSVRow)
    (h : select_between_dates now startDate endDate md = some md2) :
    select_between_dates now startDate endDate md2 = some md2 := by
  rw [select_between_dates_eq] at h
  by_cases hall : md.all (fun r => (keepSite now startDate endDate r).isSome) = true
  · rw [if_pos hall] at h
    injection h with h
    subst h
    have hall2 : (md.filter (fun r => decide (keepSite now startDate endDate r = some true))).all
        (fun r => (keepSite now startDate endDate r).isSome) = true := by
      rw [List.all_eq_true] at hall ⊢
      intro r hr
      exact hall r (List.mem_of_mem_filter hr)
    rw [select_between_dates_eq, if_pos hall2]
    congr 1
    apply List.filter_eq_self.mpr
    intro a ha
    exact (List.mem_filter.mp ha).2
  · rw [if_neg hall] at h
    cases h

/-- Claim C7 witness: re-filtering the surviving open-ended record returns
it unchanged. -/
theorem select_between_dates_idempotent_witness :
    select_between_dates dtNow dt2017 dt2020 [openEndedRecord] = some [openEndedRecord] :=
  select_between_dates_idempotent dtNow dt2017 dt2020 [openEndedRecord] [openEndedRecord]
    (by decide)

/-- Claim C8: when every per-record decision evaluates, the in-place
reverse index scan of select_between_dates returns exactly the fresh
retained sequence built from the original records by the per-record
decision, in their original relative order. -/
theorem select_between_dates_refines_filter
    (now startDate endDate : DT) (md : List CSVRow)
    (h : ∀ r ∈ md, (keepSite now startDate endDate r).isSome = true) :
    select_between_dates now startDate endDate md =
      some (select_between_dates_spec now startDate endDate md) := by
  rw [select_between_dates_eq, if_pos (List.all_eq_true.mpr h)]
  rfl

/-- Claim C8 witness: the three-station scenario of the spec, where the
closed station is dropped and the two surviving stations keep their
relative order. -/
theorem select_between_dates_refines_filter_witness :
    select_between_dates dtNow dt2017 dt2020 [closedRecord, openEndedRecord, newerRecord] =
      some (select_between_dates_spec dtNow dt2017 dt2020
        [closedRecord, openEndedRecord, newerRecord]) :=
  select_between_dates_refines_filter dtNow dt2017 dt2020
    [closedRecord, openEndedRecord, newerRecord] (by decide)

/-- Claim C4: a row the CSV deserialiser rejects aborts the whole
acquisition, wherever it occurs: the caller never receives any records,
partial or otherwise. -/
theorem malformed_row_aborts_acquisition
    (sm : String → Bool) (et : String → Option String)
    (pages : String → List (Option String)) (rows : List (Except String CSVRow))
    (msg : String) (h : Except.error msg ∈ rows) :
    AURNMetadata.new sm et pages rows = none := by
  induction rows with
  | nil => cases h
  | cons row rest ih =>
    cases row with
    | error m => rfl
    | ok rec =>
      have hmem : Except.error msg ∈ rest := by
        rcases List.mem_cons.mp h with h1 | h1
        · exact Except.noConfusion h1
        · exact h1
      cases hid : getField rec ukAirIdKey with
      | none => simp [AURNMetadata.new, hid]
      | some id =>
        cases hen : enrichRecord sm et rec (pages id) with
        | none => simp [AURNMetadata.new, hid, hen]
        | some rec2 => simp [AURNMetadata.new, hid, hen, ih hmem]

/-- Claim C4 witness: a single malformed row yields no records at all. -/
theorem malformed_row_aborts_acquisition_witness :
    AURNMetadata.new (fun _ => false) (fun _ => none) (fun _ => [])
      [Except.ok idRecord, Except.error badRowMsg] = none :=
  malformed_row_aborts_acquisition (fun _ => false) (fun _ => none) (fun _ => [])
    [Except.ok idRecord, Except.error badRowMsg] badRowMsg
    (List.mem_cons_of_mem _ (List.Mem.head _))

/-- Claim C6: during enrichment of one record, every matching anchor
overwrites the Site Code field in document order, so the final value is
the token extracted from the last matching anchor of the page. -/
theorem site_code_last_match_wins
    (sm : String → Bool) (et : String → Option String)
    (rec rec2 : CSVRow) (tags : List String) (lastTag tok : String)
    (htok : et lastTag = some tok)
    (hlast : (tags.filter sm).getLast? = some lastTag)
    (hrun : enrichRecord sm et rec (tags.map some) = some rec2) :
    getField rec2 siteCodeKey = some tok := by
  induction tags generalizing rec with
  | nil => simp at hlast
  | cons t ts ih =>
    by_cases hm : sm t = true
    · cases het : et t with
      | none =>
        rw [List.map_cons] at hrun
        simp [enrichRecord, hm, het] at hrun
      | some tok0 =>
        rw [List.map_cons] at hrun
        simp only [enrichRecord, hm, het, if_true] at hrun
        rw [List.filter_cons_of_pos hm] at hlast
        by_cases hts : ts.filter sm = []
        · rw [hts] at hlast
          have hlt : lastTag = t := by
            simp at hlast
            exact hlast.symm
          subst hlt
          rw [htok] at het
          injection het with het
          subst het
          have hnom : ∀ x ∈ ts, sm x = false := by
            intro x hx
            by_contra hcon
            have hmx : sm x = true := by
              cases hsm : sm x with
              | true => rfl
              | false => exact absurd hsm hcon
            have : x ∈ ts.filter sm := List.mem_filter.mpr ⟨hx, hmx⟩
            rw [hts] at this
            cases this
          rw [enrichRecord_no_match sm et _ ts hnom] at hrun
          injection hrun with hrun
          subst hrun
          exact getField_insertField_self rec siteCodeKey tok
        · have hlast2 : (ts.filter sm).getLast? = some lastTag := by
            obtain ⟨b, l2, hbl⟩ := List.exists_cons_of_ne_nil hts
            rw [hbl] at hlast ⊢
            rw [List.getLast?_cons_cons] at hlast
            exact hlast
          exact ih _ hlast2 hrun
    · have hmf : sm t = false := by
        cases hsm : sm t with
        | true => exact absurd hsm hm
        | false => rfl
      rw [List.map_cons] at hrun
      simp only [enrichRecord, hmf] at hrun
      simp only [Bool.false_eq_true, if_false] at hrun
      rw [List.filter_cons_of_neg (by simp [hmf])] at hlast
      exact ih _ hlast hrun

/-- Claim C6 witness: with two matching anchors carrying different trailing
tokens, the record's final site code is the token of the second anchor. -/
theorem site_code_last_match_wins_witness :
    getField [(siteCodeKey, tagB)] siteCodeKey = some tagB :=
  site_code_last_match_wins (fun _ => true) (fun t => some t) [] [(siteCodeKey, tagB)]
    [tagA, tagB] tagB tagB rfl (by decide) (by decide)

/-- Claim C9 counterexample: a record whose identifier field holds the
empty string survives acquisition, so the surviving records do not all
carry a non-empty identifier. -/
theorem empty_id_survives_cex :
    AURNMetadata.new (fun _ => false) (fun _ => none) (fun _ => [])
      [Except.ok emptyIdRecord] = some [emptyIdRecord] ∧
    getField emptyIdRecord ukAirIdKey = some emptyValue ∧
    emptyValue.length = 0 := by
  refine ⟨rfl, rfl, rfl⟩

/-- Claim C9 (amended): every record that survives acquisition has the
identifier field present, though its value may be the empty string; the
source checks only the presence of the field, and its absence aborts the
whole acquisition. -/
theorem surviving_record_has_id_field
    (sm : String → Bool) (et : String → Option String)
    (pages : String → List (Option String)) (rows : List (Except String CSVRow))
    (out : List CSVRow) (r : CSVRow)
    (hrun : AURNMetadata.new sm et pages rows = some out)
    (hr : r ∈ out) :
    ∃ v, getField r ukAirIdKey = some v := by
  induction rows generalizing out with
  | nil =>
    simp only [AURNMetadata.new] at hrun
    injection hrun with hrun
    subst hrun
    cases hr
  | cons row rest ih =>
    cases row with
    | error m => exact absurd hrun (by simp [AURNMetadata.new])
    | ok rec =>
      cases hid : getField rec ukAirIdKey with
      | none => simp [AURNMetadata.new, hid] at hrun
      | some id =>
        cases hen : enrichRecord sm et rec (pages id) with
        | none => simp [AURNMetadata.new, hid, hen] at hrun
        | some rec2 =>
          cases hrest : AURNMetadata.new sm et pages rest with
          | none => simp [AURNMetadata.new, hid, hen, hrest] at hrun
          | some out2 =>
            simp only [AURNMetadata.new, hid, hen, hrest] at hrun
            injection hrun with hrun
            subst hrun
            rcases List.mem_cons.mp hr with h1 | h1
            · subst h1
              have hpres : getField r ukAirIdKey = getField rec ukAirIdKey :=
                enrichRecord_getField_ne sm et rec r (pages id) ukAirIdKey (by decide) hen
              exact ⟨id, by rw [hpres, hid]⟩
            · exact ih out2 hrest h1

/-- Claim C9 witness: the surviving enriched record still carries its
identifier field. -/
theorem surviving_record_has_id_field_witness :
    ∃ v, getField idRecord ukAirIdKey = some v :=
  surviving_record_has_id_field (fun _ => false) (fun _ => none) (fun _ => [])
    [Except.ok idRecord] [idRecord] idRecord rfl (List.Mem.head _)

/-- Claim C10: if the page of a station whose row is acquired contains an
anchor matching the bData selector without an href attribute, the whole
acquisition fails, even though a page with no matching anchors at all is a
per-record soft outcome. -/
theorem missing_href_aborts_acquisition
    (sm : String → Bool) (et : String → Option String)
    (pages : String → List (Option String)) (rows : List (Except String CSVRow))
    (rec : CSVRow) (id : String)
    (hrow : Except.ok rec ∈ rows)
    (hid : getField rec ukAirIdKey = some id)
    (hnone : none ∈ pages id) :
    AURNMetadata.new sm et pages rows = none := by
  induction rows with
  | nil => cases hrow
  | cons row rest ih =>
    cases row with
    | error m => rfl
    | ok rec0 =>
      rcases List.mem_cons.mp hrow with h1 | h1
      · have h2 : rec = rec0 := by
          injection h1
        subst h2
        simp [AURNMetadata.new, hid, enrichRecord_none_of_mem sm et rec (pages id) hnone]
      · cases hid0 : getField rec0 ukAirIdKey with
        | none => simp [AURNMetadata.new, hid0]
        | some id0 =>
          cases hen : enrichRecord sm et rec0 (pages id0) with
          | none => simp [AURNMetadata.new, hid0, hen]
          | some rec2 => simp [AURNMetadata.new, hid0, hen, ih h1]

/-- Claim C10 witness: one attribute-less matching anchor on the page of
the only station makes the whole acquisition fail. -/
theorem missing_href_aborts_acquisition_witness :
    AURNMetadata.new (fun _ => true) (fun t => some t)
      (fun _ => [some tagA, none]) [Except.ok idRecord] = none :=
  missing_href_aborts_acquisition (fun _ => true) (fun t => some t)
    (fun _ => [some tagA, none]) [Except.ok idRecord] idRecord stationId
    (List.Mem.head _) (by decide) (by decide)
